import Mathlib

/-!
Verification development for the jamesfish chess engine (src/search.py and
src/evaluation.py), checked against its natural-language specification.

The search engine is embedded as a shallow, state-passing model:

* the python float infinities used as alpha/beta bounds (float(-inf), float(inf))
  modelled by `XInt` (an `Int` extended with two infinities, with exactly the
  operations the source applies to these values: negation, adding an integer
  constant, comparison, max);
* the mutable `chess.Board` is threaded explicitly through every call; a raised
  `TimeoutError` is modelled as an `Except.error` carrying the board and engine
  state exactly as they are at the moment of the raise (in python the caller
  keeps aliases to those same mutated objects while the exception unwinds);
* the external Rules Engine (python-chess) is abstracted as a `Rules` record
  providing the queries the source actually calls;
* unbounded recursion is made total with an explicit fuel argument; running out
  of fuel is a distinct error that no handler in the model absorbs.
-/

/-- `Int` extended with `-inf` and `+inf`, modelling the python float
infinities used as alpha/beta bounds, mixed with integer scores. -/
inductive XInt where
  | bot
  | fin (n : Int)
  | top
deriving DecidableEq, Repr

namespace XInt

/-- Negation; swaps the infinities, like IEEE float negation. -/
def neg : XInt → XInt
  | bot => top
  | fin n => fin (-n)
  | top => bot

/-- Strict comparison `a < b` with `bot < fin _ < top`. -/
def blt : XInt → XInt → Bool
  | bot, bot => false
  | bot, _ => true
  | fin _, top => true
  | fin a, fin b => a < b
  | _, _ => false

/-- `a <= b`, defined from `blt` as in a total order without NaNs. -/
def ble (a b : XInt) : Bool := !(blt b a)

/-- Python `max` on these values. -/
def maxx (a b : XInt) : XInt := if blt a b then b else a

/-- Adding an integer constant; the infinities absorb, like IEEE floats. -/
def addInt : XInt → Int → XInt
  | bot, _ => bot
  | top, _ => top
  | fin a, k => fin (a + k)

end XInt

/-- A chess piece as the search code sees it: a python-chess `piece_type`
(1 = pawn, 2 = knight, 3 = bishop, 4 = rook, 5 = queen, 6 = king) and a color
(`true` = White, as python-chess `chess.WHITE`). -/
structure Piece where
  pieceType : Nat
  color : Bool
deriving DecidableEq, Repr

/-- `Evaluator.PIECE_VALUES` from evaluation.py, as a function on piece types.
A key outside 1..6 would raise `KeyError` in python; it cannot occur in the
modelled code paths, and is mapped to 0 here. -/
def pieceValue : Nat → Int
  | 1 => 100
  | 2 => 320
  | 3 => 330
  | 4 => 500
  | 5 => 900
  | 6 => 20000
  | _ => 0

/-- The interface of the external Rules Engine (python-chess) restricted to the
queries search.py actually performs. `P` is the position (board) type, `M` the
move type, `K` the type of the canonical position encoding (`board.fen()`). -/
structure Rules (P M K : Type) where
  legalMoves : P → List M
  push : P → M → P
  pop : P → P
  nullMove : M
  isCheck : P → Bool
  isCapture : P → M → Bool
  givesCheck : P → M → Bool
  isGameOver : P → Bool
  fen : P → K
  pieceAt : P → Nat → Option Piece
  fromSquare : M → Nat
  toSquare : M → Nat
  pieces : P → Nat → Bool → Nat
  turn : P → Bool

/-- The mutable attributes of `SearchEngine` (search.py `__init__`).
`start_time` / `max_time` are modelled by `pollCount` together with a `clock`
oracle passed to the search functions: the n-th call to `should_stop_search`
returns `clock n`, abstracting the real-time budget check. -/
structure EngineState (M K : Type) where
  nodesSearched : Nat
  pollCount : Nat
  bestMoveFound : Option M
  transpositionTable : K → Option (Int × XInt × Option M)
  historyTable : List ((Nat × Nat) × Int)
  killerMoves : Nat → Option M × Option M
  pvTable : Nat → Int → Option M

/-- A fresh `SearchEngine` state: all tables empty, as after `__init__`. -/
def emptyState {M K : Type} : EngineState M K where
  nodesSearched := 0
  pollCount := 0
  bestMoveFound := none
  transpositionTable := fun _ => none
  historyTable := []
  killerMoves := fun _ => (none, none)
  pvTable := fun _ _ => none

/-- `self.NULL_MOVE_R` -/
def NULL_MOVE_R : Int := 3
/-- `self.FUTILITY_MARGIN` (assigned in `__init__`, never read by the code). -/
def FUTILITY_MARGIN : Int := 80
/-- `self.LMR_DEPTH` -/
def LMR_DEPTH : Int := 2
/-- `self.LMR_MOVES` -/
def LMR_MOVES : Nat := 3
/-- `DELTA_MARGIN` from `quiescence_search`. -/
def DELTA_MARGIN : Int := 150

/-- The ways the modelled code can abort: a raised `TimeoutError`, or fuel
exhaustion (the model's marker for unbounded recursion). -/
inductive SearchErr where
  | timeout
  | fuelOut
deriving DecidableEq, Repr

section Engine

variable {P M K : Type} [DecidableEq M] [DecidableEq K]

/-- `clear_tables` from search.py: clears the history, killer and PV tables.
It does not touch `transposition_table`. -/
def clearTables (st : EngineState M K) : EngineState M K :=
  { st with
    historyTable := []
    killerMoves := fun _ => (none, none)
    pvTable := fun _ _ => none }

/-- `get_move_score` from search.py. -/
def getMoveScore (R : Rules P M K) (st : EngineState M K) (pos : P) (mv : M)
    (ply : Nat) : Int :=
  -- 1. PV move: `if self.pv_table[0][ply] == move: return 20000`
  if st.pvTable 0 (ply : Int) = some mv then 20000
  else
    -- 2. hash move from the transposition table
    if (match st.transpositionTable (R.fen pos) with
        | some e => decide (e.2.2 = some mv)
        | none => false) then 19000
    else
      -- 3. captures: `10000 + (victim.piece_type * 10 - attacker.piece_type)`;
      -- if attacker or victim lookup is None the initial score 0 is returned
      if R.isCapture pos mv then
        match R.pieceAt pos (R.fromSquare mv), R.pieceAt pos (R.toSquare mv) with
        | some a, some v => 10000 + ((v.pieceType : Int) * 10 - (a.pieceType : Int))
        | _, _ => 0
      else
        -- 4. killer moves
        if (st.killerMoves ply).1 = some mv ∨ (st.killerMoves ply).2 = some mv then
          9000 + (if (st.killerMoves ply).1 = some mv then 1000 else 0)
        else
          -- 5. history score, default 0
          ((st.historyTable.find? (fun kv =>
            decide (kv.1 = (R.fromSquare mv, R.toSquare mv)))).map (fun kv => kv.2)).getD 0

/-- Insert into a list already sorted by descending score, after every element
with a score `>=` the new one (this is what makes the sort below stable). -/
def insertScoredDesc (x : M × Int) : List (M × Int) → List (M × Int)
  | [] => [x]
  | y :: ys => if x.2 ≥ y.2 then x :: y :: ys else y :: insertScoredDesc x ys

/-- Stable descending sort by score, modelling python `list.sort(key=...,
reverse=True)` (Timsort is stable). -/
def sortScoredDesc : List (M × Int) → List (M × Int)
  | [] => []
  | x :: xs => insertScoredDesc x (sortScoredDesc xs)

/-- `order_moves` from search.py. -/
def orderMoves (R : Rules P M K) (st : EngineState M K) (pos : P) (moves : List M)
    (ply : Nat) : List M :=
  (sortScoredDesc (moves.map (fun m => (m, getMoveScore R st pos m ply)))).map (fun x => x.1)

/-- `update_history_score` from search.py. The dict write
`history_table[key] = history_table.get(key, 0) + depth * depth` is modelled by
prepending to an association list read through `find?` (first match wins). -/
def updateHistoryScore (R : Rules P M K) (st : EngineState M K) (mv : M)
    (depth : Int) : EngineState M K :=
  let key := (R.fromSquare mv, R.toSquare mv)
  let old := ((st.historyTable.find? (fun kv => decide (kv.1 = key))).map
    (fun kv => kv.2)).getD 0
  { st with historyTable := (key, old + depth * depth) :: st.historyTable }

/-- `update_killer_moves` from search.py. -/
def updateKillerMoves (st : EngineState M K) (mv : M) (ply : Nat) :
    EngineState M K :=
  let k := st.killerMoves ply
  if k.1 = some mv then st
  else { st with killerMoves := fun i => if i = ply then (some mv, k.1) else st.killerMoves i }

/-- `store_pv_move` from search.py: `pv_table[ply][depth] = move`. -/
def storePvMove (st : EngineState M K) (mv : M) (ply : Nat) (depth : Int) :
    EngineState M K :=
  { st with pvTable := fun r c => if r = ply ∧ c = depth then some mv else st.pvTable r c }

/-- `static_null_move_pruning` from search.py. -/
def staticNullMovePruning (R : Rules P M K) (E : P → Int) (pos : P) (beta : XInt)
    (depth : Int) : Bool :=
  if decide (depth < 3) || R.isCheck pos then false
  else XInt.ble beta (XInt.fin (E pos - 120 * depth))

/-- `reverse_futility_pruning` from search.py. -/
def reverseFutilityPruning (R : Rules P M K) (E : P → Int) (pos : P) (alpha : XInt)
    (depth : Int) : Bool :=
  if decide (depth < 3) || R.isCheck pos then false
  else XInt.ble (XInt.fin (E pos + 120 * depth)) alpha

/-- `can_do_null_move` from search.py: queens (piece type 5) and rooks (4) of
the side to move. -/
def canDoNullMove (R : Rules P M K) (pos : P) : Bool :=
  if R.isCheck pos then false
  else decide (R.pieces pos 5 (R.turn pos) + R.pieces pos 4 (R.turn pos) > 0)

/-- `is_capture_worth_searching` from search.py. -/
def isCaptureWorthSearching (R : Rules P M K) (E : P → Int) (pos : P) (mv : M)
    (alpha : XInt) : Bool :=
  let victimValue : Int :=
    match R.pieceAt pos (R.toSquare mv) with
    | some v => pieceValue v.pieceType
    | none => 0
  if XInt.blt (XInt.fin (E pos + victimValue + 150)) alpha then false else true

/-- A fold over a list that can stop with an error, modelling a python `for`
loop whose body may raise; `break` is modelled by a flag inside the
accumulator that makes the remaining steps no-ops. -/
def loopGo {α ε γ : Type} (step : γ → α → Except ε γ) : List α → γ → Except ε γ
  | [], acc => .ok acc
  | a :: l, acc =>
    match step acc a with
    | .error e => .error e
    | .ok acc2 => loopGo step l acc2

/-- Case predicate on an `Except` result: `Q` must hold of a normal value,
`Qe` of a raised error. -/
def ExceptInv {ε γ : Type} (Q : γ → Prop) (Qe : ε → Prop) : Except ε γ → Prop
  | .ok c => Q c
  | .error e => Qe e

/-- `quiescence_search` from search.py. The result is `none` when the fuel
runs out (the model's stand-in for unbounded recursion); the source never
raises here, and in particular performs no time-budget poll. The `depth`
parameter is decremented and passed on but never tested, exactly as in the
source. The board is restored by the balanced push/pop, so the function is
pure in the position. -/
def quiescence (R : Rules P M K) (E : P → Int) :
    Nat → P → XInt → XInt → Int → Option XInt
  | 0, _, _, _, _ => none
  | fuel + 1, pos, alpha, beta, depth =>
    let standPat := E pos
    if XInt.ble beta (XInt.fin standPat) then some beta
    else if XInt.blt (XInt.fin standPat) (XInt.addInt alpha (-DELTA_MARGIN)) then some alpha
    else
      let alpha1 := XInt.maxx alpha (XInt.fin standPat)
      -- the loop accumulator is (current alpha, early `return beta` result)
      match loopGo (fun (acc : XInt × Option XInt) mv =>
          match acc.2 with
          | some _ => .ok acc
          | none =>
            if !(R.isCapture pos mv) && !(R.givesCheck pos mv) then .ok acc
            else if !(isCaptureWorthSearching R E pos mv acc.1) then .ok acc
            else
              match quiescence R E fuel (R.push pos mv) (XInt.neg beta) (XInt.neg acc.1)
                  (depth - 1) with
              | none => .error ()
              | some s0 =>
                let score := XInt.neg s0
                if XInt.ble beta score then .ok (acc.1, some beta)
                else .ok (XInt.maxx acc.1 score, none))
        (R.legalMoves pos) (alpha1, none) with
      | .error _ => none
      | .ok (_, some b) => some b
      | .ok (a, none) => some a

end Engine

/-- Accumulator of the move loop inside `negamax` (the mutable loop-local
variables `move_index`, `alpha`, `best_value`, `best_move`, the shared board
and engine state, and a flag recording that `break` was executed). -/
structure MoveLoopAcc (P M K : Type) where
  idx : Nat
  alpha : XInt
  bestValue : XInt
  bestMove : Option M
  pos : P
  st : EngineState M K
  broke : Bool

section Negamax

variable {P M K : Type} [DecidableEq M] [DecidableEq K]

/-- The child search of one move-loop iteration of `negamax` (search.py lines
211-220, between `board.push(move)` and `board.pop()`): push the move, then
either the plain `depth - 1` search, or — under late-move reduction — the
reduced search followed by a full-depth re-search when the reduced value beats
alpha. `child` is the recursive call
`fun p d a b s => negamax p d a b (ply + 1) (is_root := False) s`. -/
def negamaxChildRun (R : Rules P M K)
    (child : P → Int → XInt → XInt → EngineState M K →
      Except (SearchErr × P × EngineState M K) (XInt × P × EngineState M K))
    (depth : Int) (beta : XInt) (doLmr : Bool) (acc : MoveLoopAcc P M K) (mv : M) :
    Except (SearchErr × P × EngineState M K) (XInt × P × EngineState M K) :=
  let p5 := R.push acc.pos mv
  if doLmr then
    let reduction : Int := 1 + (if acc.idx > 6 then 1 else 0)
    match child p5 (depth - 1 - reduction) (XInt.neg beta) (XInt.neg acc.alpha) acc.st with
    | .error e => .error e
    | .ok (v, p6, st6) =>
      if XInt.blt acc.alpha (XInt.neg v) then
        child p6 (depth - 1) (XInt.neg beta) (XInt.neg acc.alpha) st6
      else .ok (v, p6, st6)
  else child p5 (depth - 1) (XInt.neg beta) (XInt.neg acc.alpha) acc.st

/-- The bookkeeping after the child search of a move-loop iteration of
`negamax` (search.py lines 222-237): `board.pop()`, best value/move tracking
(and the `is_root` best-move slot write), the alpha update, and on a beta
cutoff the killer/history updates for a quiet move plus `break`. -/
def negamaxStepTail (R : Rules P M K) (depth : Int) (beta : XInt) (ply : Nat)
    (isRoot isCapture : Bool) (acc : MoveLoopAcc P M K) (mv : M)
    (v : XInt) (p6 : P) (st6 : EngineState M K) : MoveLoopAcc P M K :=
  let value := XInt.neg v
  let p7 := R.pop p6
  let better := XInt.blt acc.bestValue value
  let bestValue := if better then value else acc.bestValue
  let bestMove := if better then some mv else acc.bestMove
  let st7 := if better && isRoot then { st6 with bestMoveFound := some mv } else st6
  let alpha2 := XInt.maxx acc.alpha value
  if XInt.ble beta alpha2 then
    let st8 := if !isCapture then
        updateHistoryScore R (updateKillerMoves st7 mv ply) mv depth
      else st7
    ⟨acc.idx + 1, alpha2, bestValue, bestMove, p7, st8, true⟩
  else ⟨acc.idx + 1, alpha2, bestValue, bestMove, p7, st7, false⟩

/-- One iteration of the move loop inside `negamax` (search.py lines
197-237), assembled from `negamaxChildRun` and `negamaxStepTail`; `depth`,
`beta`, `ply`, `is_root`, `in_check`, `is_pv` are the enclosing node's
values. -/
def negamaxStep (R : Rules P M K)
    (child : P → Int → XInt → XInt → EngineState M K →
      Except (SearchErr × P × EngineState M K) (XInt × P × EngineState M K))
    (depth : Int) (beta : XInt) (ply : Nat) (isRoot inCheck isPV : Bool)
    (acc : MoveLoopAcc P M K) (mv : M) :
    Except (SearchErr × P × EngineState M K) (MoveLoopAcc P M K) :=
  if acc.broke then .ok acc
  else
    let isCapture := R.isCapture acc.pos mv
    let givesCheck := R.givesCheck acc.pos mv
    let doLmr := decide (depth ≥ LMR_DEPTH) && decide (acc.idx ≥ LMR_MOVES)
      && !inCheck && !isCapture && !givesCheck && !isPV
    match negamaxChildRun R child depth beta doLmr acc mv with
    | .error e => .error e
    | .ok (v, p6, st6) =>
      .ok (negamaxStepTail R depth beta ply isRoot isCapture acc mv v p6 st6)

/-- The move phase of `negamax` (search.py lines 191-246): generate and order
the legal moves, run the move loop, then store the PV move and the
transposition entry and return the best value. `boardHash` is the key computed
at node entry; `p4`/`st4` are the board and state after the null-move block. -/
def negamaxMovesPhase (R : Rules P M K)
    (child : P → Int → XInt → XInt → EngineState M K →
      Except (SearchErr × P × EngineState M K) (XInt × P × EngineState M K))
    (depth : Int) (alpha beta : XInt) (ply : Nat) (isRoot inCheck isPV : Bool)
    (boardHash : K) (p4 : P) (st4 : EngineState M K) :
    Except (SearchErr × P × EngineState M K) (XInt × P × EngineState M K) :=
  let moves := orderMoves R st4 p4 (R.legalMoves p4) ply
  match loopGo (negamaxStep R child depth beta ply isRoot inCheck isPV)
    moves ⟨0, alpha, XInt.bot, none, p4, st4, false⟩ with
  | .error e => .error e
  | .ok acc =>
    -- if best_move: store_pv_move(best_move, ply, depth)
    let st9 := match acc.bestMove with
      | some m => storePvMove acc.st m ply depth
      | none => acc.st
    -- transposition_table[board_hash] = (depth, best_value, best_move)
    let st10 := { st9 with transpositionTable := fun k =>
      if k = boardHash then some (depth, acc.bestValue, acc.bestMove)
      else st9.transpositionTable k }
    .ok (acc.bestValue, acc.pos, st10)

/-- `negamax` from search.py, lines 152-246, with the board and engine state
threaded explicitly. A raised `TimeoutError` is the `.timeout` error carrying
the board and state exactly as they are at the raise; note that the source
wraps `board.push(move)` / recursion / `board.pop()` in no `try/finally`, so
the error simply propagates out of the loop and the model likewise keeps the
pushed move in the carried board. `fuel` bounds the recursion depth. -/
def negamax (R : Rules P M K) (E : P → Int) (clock : Nat → Bool) :
    Nat → P → Int → XInt → XInt → Nat → Bool → EngineState M K →
    Except (SearchErr × P × EngineState M K) (XInt × P × EngineState M K)
  | 0, pos, _, _, _, _, _, st => .error (.fuelOut, pos, st)
  | fuel + 1, pos, depth, alpha, beta, ply, isRoot, st =>
    -- self.nodes_searched += 1
    let st1 := { st with nodesSearched := st.nodesSearched + 1 }
    -- if self.should_stop_search(): raise TimeoutError
    let stop := clock st1.pollCount
    let st2 := { st1 with pollCount := st1.pollCount + 1 }
    if stop then .error (.timeout, pos, st2)
    else
      -- is_pv = beta > alpha + 1
      let isPV := XInt.blt (XInt.addInt alpha 1) beta
      let boardHash := R.fen pos
      -- transposition table lookup (guarded only by `not is_root`)
      let ttHit : Option XInt :=
        if isRoot then none
        else
          match st2.transpositionTable boardHash with
          | some e => if e.1 ≥ depth then some e.2.1 else none
          | none => none
      match ttHit with
      | some sv => .ok (sv, pos, st2)
      | none =>
        let inCheck := R.isCheck pos
        -- if depth <= 0 or board.is_game_over(): return quiescence_search(...)
        if decide (depth ≤ 0) || R.isGameOver pos then
          match quiescence R E fuel pos alpha beta 4 with
          | some v => .ok (v, pos, st2)
          | none => .error (.fuelOut, pos, st2)
        else if staticNullMovePruning R E pos beta depth then .ok (beta, pos, st2)
        else if reverseFutilityPruning R E pos alpha depth then .ok (alpha, pos, st2)
        else
          -- null move pruning (search.py lines 183-189): on `null_value >=
          -- beta` return beta; otherwise fall through to the move phase with
          -- the board popped back and the engine state as the null search
          -- left it
          if !isPV && decide (depth ≥ 3) && !inCheck && canDoNullMove R pos then
            match negamax R E clock fuel (R.push pos R.nullMove)
                (depth - 1 - NULL_MOVE_R) (XInt.neg beta)
                (XInt.addInt (XInt.neg beta) 1) (ply + 1) false st2 with
            | .error e => .error e
            | .ok (v, p2, st3) =>
              let nullValue := XInt.neg v
              let p3 := R.pop p2
              if XInt.ble beta nullValue then .ok (beta, p3, st3)
              else
                negamaxMovesPhase R
                  (fun p d a b s => negamax R E clock fuel p d a b (ply + 1) false s)
                  depth alpha beta ply isRoot inCheck isPV boardHash p3 st3
          else
            negamaxMovesPhase R
              (fun p d a b s => negamax R E clock fuel p d a b (ply + 1) false s)
              depth alpha beta ply isRoot inCheck isPV boardHash pos st2

/-- Trace (ghost data) of the root `negamax` invocations made by the iterative
deepening loop: for each pass, the depth and the alpha/beta window passed. It
records what the loop does without influencing it. -/
abbrev SearchTrace := List (Int × XInt × XInt)

/-- How a `search` call can fail to produce a move: the `IndexError` raised by
`list(board.legal_moves)[0]` on an empty list, or fuel exhaustion (which no
`except` clause in the source would absorb). -/
inductive SearchFail where
  | noLegalMove
  | fuelOut
deriving DecidableEq, Repr

/-- The `for current_depth in range(1, max_depth + 1)` loop of `search`
(the second, effective definition, search.py lines 122-127). Each pass runs
`self.negamax(board, current_depth, alpha, beta, True)`: the positional `True`
binds to the `ply` parameter (so `ply = 1`) and `is_root` keeps its default
`False`. A `TimeoutError` breaks out of the loop keeping the board and state
exactly as the exception left them. -/
def searchLoop (R : Rules P M K) (E : P → Int) (clock : Nat → Bool) (fuel : Nat)
    (alpha beta : XInt) :
    List Int → P → EngineState M K → SearchTrace →
    Except Unit (P × EngineState M K × SearchTrace)
  | [], pos, st, tr => .ok (pos, st, tr)
  | d :: ds, pos, st, tr =>
    let tr1 := tr ++ [(d, alpha, beta)]
    match negamax R E clock fuel pos d alpha beta 1 false st with
    | .ok (_, p2, st2) => searchLoop R E clock fuel alpha beta ds p2 st2 tr1
    | .error (.timeout, p2, st2) => .ok (p2, st2, tr1)
    | .error (.fuelOut, _, _) => .error ()

/-- The tail of `search` (search.py lines 129-132): if no best move was
recorded take the first legal move of the board as the loop left it — on an
empty move list `list(board.legal_moves)[0]` raises, modelled as the
`noLegalMove` error — and return the move paired with the evaluator's static
value of that same board. -/
def searchFinish (R : Rules P M K) (E : P → Int) (p2 : P) (st2 : EngineState M K)
    (tr : SearchTrace) :
    Except SearchFail ((M × Int) × P × EngineState M K × SearchTrace) :=
  match st2.bestMoveFound with
  | some m => .ok ((m, E p2), p2, st2, tr)
  | none =>
    match (R.legalMoves p2).head? with
    | none => .error .noLegalMove
    | some m => .ok ((m, E p2), p2, { st2 with bestMoveFound := some m }, tr)

/-- `search` from search.py, lines 113-132 — the second definition of the
method, which shadows the earlier one at lines 32-52 (in python the later
`def` in the class body replaces the earlier; the shadowed version called
`clear_tables()` and passed `(ply=0, is_root=True)` to `negamax`). Resets the
node counter, the timing state (modelled by the poll counter) and the
best-move slot, leaves every table untouched, runs the deepening loop, and
returns the recorded best move — falling back to the first legal move of the
board in whatever state the loop left it — paired with the evaluator's static
value of that same board. -/
def search (R : Rules P M K) (E : P → Int) (clock : Nat → Bool) (fuel : Nat)
    (pos : P) (maxDepth : Nat) (st : EngineState M K) :
    Except SearchFail ((M × Int) × P × EngineState M K × SearchTrace) :=
  let st1 := { st with nodesSearched := 0, pollCount := 0, bestMoveFound := none }
  let alpha := XInt.bot
  let beta := XInt.top
  match searchLoop R E clock fuel alpha beta
      ((List.range maxDepth).map (fun i => (i : Int) + 1)) pos st1 [] with
  | .error _ => .error .fuelOut
  | .ok (p2, st2, tr) => searchFinish R E p2 st2 tr

/-- Projection: the (move, score) pair and final board of a successful
`search`, dropping the engine state (whose table fields are functions). -/
def searchOut : Except SearchFail ((M × Int) × P × EngineState M K × SearchTrace) →
    Option ((M × Int) × P)
  | .ok (ms, p, _, _) => some (ms, p)
  | .error _ => none

/-- Projection: the trace of root calls of a successful `search`. -/
def searchTraceOf : Except SearchFail ((M × Int) × P × EngineState M K × SearchTrace) →
    Option (List (Int × XInt × XInt))
  | .ok (_, _, _, tr) => some tr
  | .error _ => none

/-- Projection: the final engine state of a successful `search`. -/
def searchStateOf : Except SearchFail ((M × Int) × P × EngineState M K × SearchTrace) →
    Option (EngineState M K)
  | .ok (_, _, st, _) => some st
  | .error _ => none

/-- Projection: value and board of a normally returning `negamax`. -/
def negOut : Except (SearchErr × P × EngineState M K) (XInt × P × EngineState M K) →
    Option (XInt × P)
  | .ok (v, p, _) => some (v, p)
  | .error _ => none

/-- Projection: the board carried by a raised error of `negamax` (the state of
the shared mutable board at the moment the exception reached the caller). -/
def negErrBoard : Except (SearchErr × P × EngineState M K) (XInt × P × EngineState M K) →
    Option (SearchErr × P)
  | .error (e, p, _) => some (e, p)
  | .ok _ => none

/-- The engine state after a `negamax` call, on both the normal and the
exceptional path (in python both paths share the same mutated object). -/
def negStateOf : Except (SearchErr × P × EngineState M K) (XInt × P × EngineState M K) →
    EngineState M K
  | .ok (_, _, s) => s
  | .error (_, _, s) => s

/-- The conjunction of invariants a recursive `negamax` call satisfies when
the clock never expires: the best-move slot is untouched (the call is not a
root), a normal return restores the board, and no timeout is raised. -/
def ChildOk (p : P) (s : EngineState M K)
    (r : Except (SearchErr × P × EngineState M K) (XInt × P × EngineState M K)) : Prop :=
  (negStateOf r).bestMoveFound = s.bestMoveFound
  ∧ (∀ v p2 st2, r = .ok (v, p2, st2) → p2 = p)
  ∧ (∀ p2 st2, r ≠ .error (.timeout, p2, st2))

end Negamax

/-! ## Evaluator: pawn structure (evaluation.py `_evaluate_pawn_structure`)

A board for the evaluator is the `piece_at` lookup: squares are 0..63 with
python-chess numbering, `square(file, rank) = rank * 8 + file`,
`square_file(sq) = sq % 8`. -/

/-- `DOUBLED_PAWN_PENALTY` from evaluation.py. -/
def DOUBLED_PAWN_PENALTY : Int := -20
/-- `ISOLATED_PAWN_PENALTY` from evaluation.py. -/
def ISOLATED_PAWN_PENALTY : Int := -15
/-- `PAWN_CHAIN_BONUS` from evaluation.py. -/
def PAWN_CHAIN_BONUS : Int := 10

/-- The inner `file_pawns` count of `_evaluate_pawn_structure`: pawns of color
`c` on file `f`, scanning the 8 ranks. -/
def filePawnCount (b : Nat → Option Piece) (f : Nat) (c : Bool) : Nat :=
  (List.range 8).countP (fun r =>
    match b (r * 8 + f) with
    | some pc => decide (pc.pieceType = 1 ∧ pc.color = c)
    | none => false)

/-- The `pawn_files[color]` set of `_evaluate_pawn_structure`: the files
(as integers, so that `f - 1` at file 0 is `-1` and never a member, exactly as
in python) holding at least one pawn of the color. -/
def pawnFiles (b : Nat → Option Piece) (c : Bool) : List Int :=
  (List.range 8).filterMap (fun f =>
    if filePawnCount b f c > 0 then some ((f : Nat) : Int) else none)

/-- First pass of `_evaluate_pawn_structure`: for every pawn on the board,
if its file holds more than one friendly pawn, add
`(file_pawns - 1) * DOUBLED_PAWN_PENALTY` signed by color. Note the term is
added once per pawn of the file, since the guard sits inside the per-square
loop. -/
def pawnStructureFirstPass (b : Nat → Option Piece) : Int :=
  ((List.range 64).map (fun sq =>
    match b sq with
    | some pc =>
      if pc.pieceType = 1 then
        let filePawns := filePawnCount b (sq % 8) pc.color
        if filePawns > 1 then
          if pc.color then ((filePawns : Int) - 1) * DOUBLED_PAWN_PENALTY
          else -(((filePawns : Int) - 1) * DOUBLED_PAWN_PENALTY)
        else 0
      else 0
    | none => 0)).sum

/-- Second pass of `_evaluate_pawn_structure`: isolated-pawn penalty and
pawn-chain bonus per occupied file, for White then Black. -/
def pawnStructureSecondPass (b : Nat → Option Piece) : Int :=
  ([true, false].map (fun c =>
    ((pawnFiles b c).map (fun f =>
      (if (f - 1) ∉ pawnFiles b c ∧ (f + 1) ∉ pawnFiles b c then
        if c then ISOLATED_PAWN_PENALTY else -ISOLATED_PAWN_PENALTY
      else 0)
      + (if (f + 1) ∈ pawnFiles b c then
        if c then PAWN_CHAIN_BONUS else -PAWN_CHAIN_BONUS
      else 0))).sum)).sum

/-- `_evaluate_pawn_structure` from evaluation.py. -/
def evaluatePawnStructure (b : Nat → Option Piece) : Int :=
  pawnStructureFirstPass b + pawnStructureSecondPass b

/-- Follows the spec's words (for comparison with the source): the
doubled-pawn penalty contributes `(n - 1) * (-20)` once per *file* holding
`n > 1` pawns of one color, plus the same isolated/chain second pass. -/
def pawnStructureSpecDoubledOnce (b : Nat → Option Piece) : Int :=
  (([true, false].map (fun c =>
    ((List.range 8).map (fun f =>
      let n := filePawnCount b f c
      if n > 1 then
        if c then ((n : Int) - 1) * DOUBLED_PAWN_PENALTY
        else -(((n : Int) - 1) * DOUBLED_PAWN_PENALTY)
      else 0)).sum)).sum)
  + pawnStructureSecondPass b

/-- A board holding exactly `n` pawns of color `c` on file `f` (ranks
`0..n-1`) and nothing else. -/
def pawnsOnFile (f : Fin 8) (n : Fin 9) (c : Bool) : Nat → Option Piece :=
  fun sq => if sq % 8 = (f : Nat) ∧ sq / 8 < (n : Nat) then some ⟨1, c⟩ else none

/-- Two white pawns on the a-file (a2 and a3, squares 8 and 16). -/
def doubledPawnBoard : Nat → Option Piece :=
  fun sq => if sq = 8 ∨ sq = 16 then some ⟨1, true⟩ else none

/-! ## Concrete toy instances of the Rules interface

The Rules Engine is an external collaborator (python-chess), so the concrete
theorems instantiate the interface with small deterministic games: a position
is the stack of moves pushed from the root, `push` conses, `pop` drops the
head. -/

/-- Rules over positions `List Nat` (the pushed-move stack) with a chosen
legal-move function and game-over predicate; no checks, no captures, no
material (so null-move pruning is never eligible). -/
def listRules (legal : List Nat → List Nat) (gameOver : List Nat → Bool) :
    Rules (List Nat) Nat (List Nat) where
  legalMoves := legal
  push := fun p m => m :: p
  pop := fun p => p.tail
  nullMove := 0
  isCheck := fun _ => false
  isCapture := fun _ _ => false
  givesCheck := fun _ _ => false
  isGameOver := gameOver
  fen := fun p => p
  pieceAt := fun _ _ => none
  fromSquare := fun m => m
  toSquare := fun m => m
  pieces := fun _ _ _ => 0
  turn := fun _ => true

/-- A clock that never expires. -/
def clockNever : Nat → Bool := fun _ => false

/-- A clock whose second and later polls report that the budget is exhausted
(the first poll at index 0 still passes). -/
def clockFromPoll1 : Nat → Bool := fun i => decide (1 ≤ i)

/-- Evaluator returning 0 everywhere. -/
def evalZero : List Nat → Int := fun _ => 0

/-- Toy game A (for the cancellation claims): a single legal move everywhere,
never over. -/
def gameA : Rules (List Nat) Nat (List Nat) :=
  listRules (fun _ => [0]) (fun _ => false)

/-- Toy game B (mate-in-one shaped): at the root the two legal moves are 1
and 2; both children are terminal. Move 2 "mates": the child position
evaluates to -20000 for the side to move there. -/
def gameB : Rules (List Nat) Nat (List Nat) :=
  listRules (fun p => if p = [] then [1, 2] else []) (fun p => !p.isEmpty)

/-- Evaluator of toy game B. -/
def evalB : List Nat → Int := fun p => if p = [2] then -20000 else if p = [1] then 0 else 5

/-- Toy game C (for corruption after a timeout): at the root the legal moves
are 1 and 2; after one push the only legal move is 7; deeper positions are
over. -/
def gameC : Rules (List Nat) Nat (List Nat) :=
  listRules (fun p => if p = [] then [1, 2] else if p.length = 1 then [7] else [])
    (fun p => decide (p.length ≥ 2))

/-- Evaluator of toy game C: 0 at the root, 9 everywhere else. -/
def evalC : List Nat → Int := fun p => if p = [] then 0 else 9

/-- Toy game F (a one-configuration cycle, for the repetition claim): every
position up to stack height 3 has the single legal move 0; height 4 is over.
Every reachable position shows the same board configuration, so a stack of
height k is that configuration reached for the (k+1)-th time. -/
def gameF : Rules (List Nat) Nat (List Nat) :=
  listRules (fun p => if p.length ≥ 4 then [] else [0]) (fun p => decide (p.length ≥ 4))

/-- The number of times the (unique) board configuration of `gameF` has been
reached when the stack is `p`: once at the root plus once per push. -/
def timesReachedF (p : List Nat) : Nat := p.length + 1

/-- Constant evaluator 42 for `gameF`: the repeated position is not a draw by
static evaluation. -/
def evalF : List Nat → Int := fun _ => 42

/-- Toy game E (trivial, for the table-lifecycle claim): one legal move at the
root, children terminal. -/
def gameE : Rules (List Nat) Nat (List Nat) :=
  listRules (fun p => if p = [] then [3] else []) (fun p => !p.isEmpty)

/-- An engine state with leftovers in all four tables, as after earlier
`search` calls. -/
def dirtyState : EngineState Nat (List Nat) :=
  { (emptyState : EngineState Nat (List Nat)) with
    historyTable := [((0, 0), 42)]
    killerMoves := fun i => if i = 0 then (some 8, none) else (none, none)
    pvTable := fun r c => if r = 0 ∧ c = 0 then some 4 else none
    transpositionTable := fun k => if k = [9] then some ((7 : Int), XInt.fin 1, none) else none }

/-- An engine state whose transposition table holds the entry
`(depth 5, value 12345, move 9)` for the root position `[]` of the list
games. -/
def plantedTT : EngineState Nat (List Nat) :=
  { (emptyState : EngineState Nat (List Nat)) with
    transpositionTable := fun k =>
      if k = ([] : List Nat) then some ((5 : Int), XInt.fin 12345, some 9) else none }

/-- Toy game H (for move ordering): positions are stacks of
(from-square, to-square) moves; the root board has a white pawn on square 10,
a black queen on 20, a white queen on 30 and a black pawn on 40; root legal
moves are a quiet move (0,1), the pawn-takes-queen capture (10,20) and the
queen-takes-pawn capture (30,40). A move is a capture when its target square
is occupied. -/
def boardH : Nat → Option Piece := fun sq =>
  if sq = 10 then some ⟨1, true⟩
  else if sq = 20 then some ⟨5, false⟩
  else if sq = 30 then some ⟨5, true⟩
  else if sq = 40 then some ⟨1, false⟩
  else none

/-- Rules of toy game H. -/
def gameH : Rules (List (Nat × Nat)) (Nat × Nat) (List (Nat × Nat)) where
  legalMoves := fun p => if p = [] then [(0, 1), (10, 20), (30, 40)] else []
  push := fun p m => m :: p
  pop := fun p => p.tail
  nullMove := (0, 0)
  isCheck := fun _ => false
  isCapture := fun p m => (if p = [] then boardH m.2 else none).isSome
  givesCheck := fun _ _ => false
  isGameOver := fun p => !p.isEmpty
  fen := fun p => p
  pieceAt := fun p sq => if p = [] then boardH sq else none
  fromSquare := fun m => m.1
  toSquare := fun m => m.2
  pieces := fun _ _ _ => 0
  turn := fun _ => true

/-! ## Invariant lemmas

General facts about `negamax` and the deepening loop used by several claim
theorems: when the clock never expires, a recursive (non-root) call preserves
the best-move slot, restores the board on normal return, and never raises the
timeout. -/

theorem updateKillerMoves_bmf {M K : Type} [DecidableEq M] [DecidableEq K] (st : EngineState M K) (mv : M) (ply : Nat) :
    (updateKillerMoves st mv ply).bestMoveFound = st.bestMoveFound := by
  simp only [updateKillerMoves]
  split <;> rfl

theorem updateHistoryScore_bmf {P M K : Type} (R : Rules P M K) (st : EngineState M K) (mv : M) (d : Int) :
    (updateHistoryScore R st mv d).bestMoveFound = st.bestMoveFound := rfl

theorem storePvMove_bmf {M K : Type} [DecidableEq M] (st : EngineState M K) (mv : M) (ply : Nat) (d : Int) :
    (storePvMove st mv ply d).bestMoveFound = st.bestMoveFound := rfl

theorem loopGo_inv {α ε γ : Type} {step : γ → α → Except ε γ} {Q : γ → Prop} {Qe : ε → Prop}
    (h : ∀ c a, Q c → ExceptInv Q Qe (step c a)) :
    ∀ (l : List α) (c : γ), Q c → ExceptInv Q Qe (loopGo step l c) := by
  intro l
  induction l with
  | nil => intro c hc; simpa [loopGo, ExceptInv] using hc
  | cons a l ih =>
    intro c hc
    have hs := h c a hc
    cases hf : step c a with
    | error e =>
      rw [hf] at hs
      simp only [loopGo, hf]
      exact hs
    | ok c2 =>
      rw [hf] at hs
      simp only [loopGo, hf]
      exact ih c2 hs

theorem negamaxChildRun_inv {P M K : Type} [DecidableEq M] [DecidableEq K] (R : Rules P M K)
    (child : P → Int → XInt → XInt → EngineState M K →
      Except (SearchErr × P × EngineState M K) (XInt × P × EngineState M K))
    (depth : Int) (beta : XInt) (doLmr : Bool)
    (hchild : ∀ p d a b s, ChildOk p s (child p d a b s))
    (acc : MoveLoopAcc P M K) (mv : M) :
    ExceptInv
      (fun out : XInt × P × EngineState M K =>
        out.2.1 = R.push acc.pos mv ∧ out.2.2.bestMoveFound = acc.st.bestMoveFound)
      (fun e : SearchErr × P × EngineState M K =>
        e.1 ≠ .timeout ∧ e.2.2.bestMoveFound = acc.st.bestMoveFound)
      (negamaxChildRun R child depth beta doLmr acc mv) := by
  have herr : ∀ (p : P) (s : EngineState M K) (e : SearchErr × P × EngineState M K),
      ChildOk p s (.error e) → e.1 ≠ .timeout ∧ e.2.2.bestMoveFound = s.bestMoveFound := by
    rintro p s ⟨err, p2, st2⟩ ⟨h1, _, h3⟩
    refine ⟨?_, h1⟩
    intro hT
    have hT2 : err = SearchErr.timeout := hT
    exact h3 p2 st2 (by rw [hT2])
  simp only [negamaxChildRun]
  by_cases hlmr : doLmr = true
  · simp only [hlmr, if_true]
    cases hc1 : child (R.push acc.pos mv) (depth - 1 - (1 + if acc.idx > 6 then 1 else 0))
        (XInt.neg beta) (XInt.neg acc.alpha) acc.st with
    | error e =>
      have := herr _ _ _ (hc1 ▸ hchild (R.push acc.pos mv) _ _ _ acc.st)
      simpa [ExceptInv] using this
    | ok out =>
      obtain ⟨v, p6, st6⟩ := out
      have hck1 := hchild (R.push acc.pos mv) (depth - 1 - (1 + if acc.idx > 6 then 1 else 0))
        (XInt.neg beta) (XInt.neg acc.alpha) acc.st
      rw [hc1] at hck1
      obtain ⟨hb1, hp1, _⟩ := hck1
      have hp6 : p6 = R.push acc.pos mv := hp1 v p6 st6 rfl
      by_cases hre : XInt.blt acc.alpha (XInt.neg v) = true
      · simp only [hre, if_true]
        cases hc2 : child p6 (depth - 1) (XInt.neg beta) (XInt.neg acc.alpha) st6 with
        | error e =>
          have := herr _ _ _ (hc2 ▸ hchild p6 _ _ _ st6)
          exact ⟨this.1, this.2.trans hb1⟩
        | ok out2 =>
          obtain ⟨v2, p7, st7⟩ := out2
          have hck2 := hchild p6 (depth - 1) (XInt.neg beta) (XInt.neg acc.alpha) st6
          rw [hc2] at hck2
          obtain ⟨hb2, hp2, _⟩ := hck2
          have hp7 : p7 = p6 := hp2 v2 p7 st7 rfl
          exact ⟨hp7.trans hp6, hb2.trans hb1⟩
      · simp only [hre, if_false]
        exact ⟨hp6, hb1⟩
  · simp only [hlmr, if_false]
    cases hc : child (R.push acc.pos mv) (depth - 1) (XInt.neg beta) (XInt.neg acc.alpha) acc.st with
    | error e =>
      have := herr _ _ _ (hc ▸ hchild (R.push acc.pos mv) _ _ _ acc.st)
      simpa [ExceptInv] using this
    | ok out =>
      obtain ⟨v, p6, st6⟩ := out
      have hck := hchild (R.push acc.pos mv) (depth - 1) (XInt.neg beta) (XInt.neg acc.alpha) acc.st
      rw [hc] at hck
      obtain ⟨hb, hp, _⟩ := hck
      exact ⟨hp v p6 st6 rfl, hb⟩

theorem negamaxStepTail_inv {P M K : Type} [DecidableEq M] [DecidableEq K] (R : Rules P M K) (depth : Int) (beta : XInt) (ply : Nat)
    (isCapture : Bool) (acc : MoveLoopAcc P M K) (mv : M)
    (v : XInt) (p6 : P) (st6 : EngineState M K) :
    (negamaxStepTail R depth beta ply false isCapture acc mv v p6 st6).pos = R.pop p6
    ∧ (negamaxStepTail R depth beta ply false isCapture acc mv v p6 st6).st.bestMoveFound
        = st6.bestMoveFound := by
  constructor
  · simp only [negamaxStepTail]
    split <;> rfl
  · simp only [negamaxStepTail]
    split
    · dsimp only
      split
      · rw [updateHistoryScore_bmf, updateKillerMoves_bmf]
        simp
      · simp
    · dsimp only
      simp

theorem negamaxStep_inv {P M K : Type} [DecidableEq M] [DecidableEq K] (R : Rules P M K)
    (child : P → Int → XInt → XInt → EngineState M K →
      Except (SearchErr × P × EngineState M K) (XInt × P × EngineState M K))
    (depth : Int) (beta : XInt) (ply : Nat) (inCheck isPV : Bool)
    (hpp : ∀ p m, R.pop (R.push p m) = p)
    (hchild : ∀ p d a b s, ChildOk p s (child p d a b s))
    (pos0 : P) (bmf0 : Option M) :
    ∀ (acc : MoveLoopAcc P M K) (mv : M), acc.pos = pos0 ∧ acc.st.bestMoveFound = bmf0 →
      ExceptInv
        (fun acc2 : MoveLoopAcc P M K => acc2.pos = pos0 ∧ acc2.st.bestMoveFound = bmf0)
        (fun e : SearchErr × P × EngineState M K =>
          e.1 ≠ .timeout ∧ e.2.2.bestMoveFound = bmf0)
        (negamaxStep R child depth beta ply false inCheck isPV acc mv) := by
  rintro acc mv ⟨hpos, hbmf⟩
  simp only [negamaxStep]
  by_cases hbroke : acc.broke = true
  · simp only [hbroke, if_true]
    exact ⟨hpos, hbmf⟩
  · simp only [hbroke, if_false]
    have hrun := negamaxChildRun_inv R child depth beta
      (decide (depth ≥ LMR_DEPTH) && decide (acc.idx ≥ LMR_MOVES)
        && !inCheck && !(R.isCapture acc.pos mv) && !(R.givesCheck acc.pos mv) && !isPV)
      hchild acc mv
    cases hc : negamaxChildRun R child depth beta
        (decide (depth ≥ LMR_DEPTH) && decide (acc.idx ≥ LMR_MOVES)
          && !inCheck && !(R.isCapture acc.pos mv) && !(R.givesCheck acc.pos mv) && !isPV)
        acc mv with
    | error e =>
      rw [hc] at hrun
      simp only [ExceptInv] at hrun
      exact ⟨hrun.1, hrun.2.trans hbmf⟩
    | ok out =>
      obtain ⟨v, p6, st6⟩ := out
      rw [hc] at hrun
      simp only [ExceptInv] at hrun
      have htail := negamaxStepTail_inv R depth beta ply (R.isCapture acc.pos mv) acc mv v p6 st6
      refine ⟨?_, ?_⟩
      · rw [htail.1, show p6 = R.push acc.pos mv from hrun.1, hpp, hpos]
      · rw [htail.2, show st6.bestMoveFound = acc.st.bestMoveFound from hrun.2, hbmf]

theorem childOk_ok {P M K : Type} [DecidableEq M] [DecidableEq K]
    {pos p2 : P} {st st2 : EngineState M K} {v : XInt}
    (h : p2 = pos) (hb : st2.bestMoveFound = st.bestMoveFound) :
    ChildOk pos st (.ok (v, p2, st2)) := by
  refine ⟨hb, ?_, ?_⟩
  · intro v' p2' st2' h2
    cases h2
    exact h
  · intro p2' st2' h2
    simp at h2

theorem childOk_error {P M K : Type} [DecidableEq M] [DecidableEq K]
    {pos : P} {st : EngineState M K} {e : SearchErr × P × EngineState M K}
    (hnt : e.1 ≠ .timeout) (hb : e.2.2.bestMoveFound = st.bestMoveFound) :
    ChildOk pos st (.error e) := by
  refine ⟨hb, ?_, ?_⟩
  · intro v' p2' st2' h2
    simp at h2
  · intro p2' st2' h2
    cases h2
    exact hnt rfl

theorem childOk_mono {P M K : Type} [DecidableEq M] [DecidableEq K]
    {pos p4 : P} {st st4 : EngineState M K}
    {r : Except (SearchErr × P × EngineState M K) (XInt × P × EngineState M K)}
    (h : ChildOk p4 st4 r) (hp : p4 = pos)
    (hb : st4.bestMoveFound = st.bestMoveFound) : ChildOk pos st r := by
  obtain ⟨h1, h2, h3⟩ := h
  exact ⟨h1.trans hb, fun v p2 st2 he => (h2 v p2 st2 he).trans hp, h3⟩

theorem negamaxMovesPhase_inv {P M K : Type} [DecidableEq M] [DecidableEq K]
    (R : Rules P M K)
    (child : P → Int → XInt → XInt → EngineState M K →
      Except (SearchErr × P × EngineState M K) (XInt × P × EngineState M K))
    (depth : Int) (alpha beta : XInt) (ply : Nat) (inCheck isPV : Bool)
    (boardHash : K)
    (hpp : ∀ p m, R.pop (R.push p m) = p)
    (hchild : ∀ p d a b s, ChildOk p s (child p d a b s))
    (p4 : P) (st4 : EngineState M K) :
    ChildOk p4 st4 (negamaxMovesPhase R child depth alpha beta ply false inCheck isPV
      boardHash p4 st4) := by
  have hloop := loopGo_inv
    (negamaxStep_inv R child depth beta ply inCheck isPV hpp hchild p4 st4.bestMoveFound)
    (orderMoves R st4 p4 (R.legalMoves p4) ply)
    ⟨0, alpha, XInt.bot, none, p4, st4, false⟩ ⟨rfl, rfl⟩
  simp only [negamaxMovesPhase]
  cases hL : loopGo (negamaxStep R child depth beta ply false inCheck isPV)
      (orderMoves R st4 p4 (R.legalMoves p4) ply)
      ⟨0, alpha, XInt.bot, none, p4, st4, false⟩ with
  | error e =>
    rw [hL] at hloop
    exact childOk_error hloop.1 hloop.2
  | ok acc =>
    rw [hL] at hloop
    refine childOk_ok hloop.1 ?_
    cases hbm : acc.bestMove with
    | none => simpa [hbm] using hloop.2
    | some m => simpa [hbm, storePvMove_bmf] using hloop.2

theorem negamax_inv {P M K : Type} [DecidableEq M] [DecidableEq K]
    (R : Rules P M K) (E : P → Int) (clock : Nat → Bool)
    (hpp : ∀ p m, R.pop (R.push p m) = p) (hclock : ∀ i, clock i = false) :
    ∀ (fuel : Nat) (pos : P) (depth : Int) (alpha beta : XInt) (ply : Nat)
      (st : EngineState M K),
      ChildOk pos st (negamax R E clock fuel pos depth alpha beta ply false st) := by
  intro fuel
  induction fuel with
  | zero =>
    intro pos depth alpha beta ply st
    exact childOk_error (by simp) rfl
  | succ fuel ih =>
    intro pos depth alpha beta ply st
    have hchild : ∀ p d a b s, ChildOk p s
        (negamax R E clock fuel p d a b (ply + 1) false s) :=
      fun p d a b s => ih p d a b (ply + 1) s
    simp only [negamax, hclock, Bool.false_eq_true, if_false]
    split
    · -- transposition hit
      exact childOk_ok rfl rfl
    · split
      · -- depth <= 0 or game over: quiescence
        split
        · exact childOk_ok rfl rfl
        · exact childOk_error (by simp) rfl
      · split
        · -- static null move pruning
          exact childOk_ok rfl rfl
        · split
          · -- reverse futility pruning
            exact childOk_ok rfl rfl
          · -- null move block, then the move phase
            by_cases hN : (!(XInt.addInt alpha 1).blt beta && decide (depth ≥ 3)
                && !R.isCheck pos && canDoNullMove R pos) = true
            · rw [if_pos hN]
              cases hc : negamax R E clock fuel (R.push pos R.nullMove)
                  (depth - 1 - NULL_MOVE_R) (XInt.neg beta)
                  (XInt.addInt (XInt.neg beta) 1) (ply + 1) false
                  { st with nodesSearched := st.nodesSearched + 1,
                            pollCount := st.pollCount + 1 } with
              | error e =>
                have hck := hchild (R.push pos R.nullMove) (depth - 1 - NULL_MOVE_R)
                  (XInt.neg beta) (XInt.addInt (XInt.neg beta) 1)
                  { st with nodesSearched := st.nodesSearched + 1,
                            pollCount := st.pollCount + 1 }
                rw [hc] at hck
                obtain ⟨hb, _, hnt⟩ := hck
                exact childOk_error
                  (by intro hT
                      obtain ⟨err, p2, st2⟩ := e
                      exact hnt p2 st2 (by rw [show err = SearchErr.timeout from hT]))
                  hb
              | ok out =>
                obtain ⟨v, p2, st3⟩ := out
                have hck := hchild (R.push pos R.nullMove) (depth - 1 - NULL_MOVE_R)
                  (XInt.neg beta) (XInt.addInt (XInt.neg beta) 1)
                  { st with nodesSearched := st.nodesSearched + 1,
                            pollCount := st.pollCount + 1 }
                rw [hc] at hck
                obtain ⟨hb, hpok, _⟩ := hck
                have hpop : R.pop p2 = pos := by
                  rw [hpok v p2 st3 rfl, hpp]
                show ChildOk pos st (if XInt.ble beta (XInt.neg v) = true
                  then Except.ok (beta, R.pop p2, st3)
                  else negamaxMovesPhase R
                    (fun p d a b s => negamax R E clock fuel p d a b (ply + 1) false s)
                    depth alpha beta ply false (R.isCheck pos)
                    ((XInt.addInt alpha 1).blt beta) (R.fen pos) (R.pop p2) st3)
                by_cases hcut : XInt.ble beta (XInt.neg v) = true
                · -- null value >= beta: cutoff
                  rw [if_pos hcut]
                  exact childOk_ok hpop hb
                · -- fall through to the move phase
                  rw [if_neg hcut]
                  exact childOk_mono
                    (negamaxMovesPhase_inv R _ depth alpha beta ply (R.isCheck pos)
                      ((XInt.addInt alpha 1).blt beta) (R.fen pos) hpp hchild
                      (R.pop p2) st3)
                    hpop hb
            · rw [if_neg hN]
              exact childOk_mono
                (negamaxMovesPhase_inv R _ depth alpha beta ply (R.isCheck pos)
                  ((XInt.addInt alpha 1).blt beta) (R.fen pos) hpp hchild
                  pos { st with nodesSearched := st.nodesSearched + 1,
                                pollCount := st.pollCount + 1 })
                rfl rfl

theorem searchLoop_inv {P M K : Type} [DecidableEq M] [DecidableEq K]
    (R : Rules P M K) (E : P → Int) (clock : Nat → Bool) (fuel : Nat)
    (alpha beta : XInt)
    (hpp : ∀ p m, R.pop (R.push p m) = p) (hclock : ∀ i, clock i = false) :
    ∀ (ds : List Int) (pos : P) (st : EngineState M K) (tr : SearchTrace)
      (p2 : P) (st2 : EngineState M K) (tr2 : SearchTrace),
      searchLoop R E clock fuel alpha beta ds pos st tr = .ok (p2, st2, tr2) →
      p2 = pos ∧ st2.bestMoveFound = st.bestMoveFound := by
  intro ds
  induction ds with
  | nil =>
    intro pos st tr p2 st2 tr2 h
    simp only [searchLoop] at h
    cases h
    exact ⟨rfl, rfl⟩
  | cons d ds ih =>
    intro pos st tr p2 st2 tr2 h
    have hck := negamax_inv R E clock hpp hclock fuel pos d alpha beta 1 st
    simp only [searchLoop] at h
    cases hc : negamax R E clock fuel pos d alpha beta 1 false st with
    | ok out =>
      obtain ⟨v, p3, st3⟩ := out
      rw [hc] at h hck
      obtain ⟨hb, hp, _⟩ := hck
      have hrec := ih p3 st3 (tr ++ [(d, alpha, beta)]) p2 st2 tr2 h
      exact ⟨hrec.1.trans (hp v p3 st3 rfl), hrec.2.trans hb⟩
    | error e =>
      obtain ⟨err, p3, st3⟩ := e
      rw [hc] at h hck
      obtain ⟨hb, _, hnt⟩ := hck
      cases err with
      | timeout => exact absurd rfl (hnt p3 st3)
      | fuelOut => simp at h

theorem searchLoop_trace {P M K : Type} [DecidableEq M] [DecidableEq K]
    (R : Rules P M K) (E : P → Int) (clock : Nat → Bool) (fuel : Nat)
    (alpha beta : XInt) :
    ∀ (ds : List Int) (pos : P) (st : EngineState M K) (tr : SearchTrace)
      (p2 : P) (st2 : EngineState M K) (tr2 : SearchTrace),
      searchLoop R E clock fuel alpha beta ds pos st tr = .ok (p2, st2, tr2) →
      ∃ k, tr2 = tr ++ (ds.take k).map (fun d => (d, alpha, beta)) := by
  intro ds
  induction ds with
  | nil =>
    intro pos st tr p2 st2 tr2 h
    simp only [searchLoop] at h
    cases h
    exact ⟨0, by simp⟩
  | cons d ds ih =>
    intro pos st tr p2 st2 tr2 h
    simp only [searchLoop] at h
    cases hc : negamax R E clock fuel pos d alpha beta 1 false st with
    | ok out =>
      obtain ⟨v, p3, st3⟩ := out
      rw [hc] at h
      obtain ⟨k, hk⟩ := ih p3 st3 (tr ++ [(d, alpha, beta)]) p2 st2 tr2 h
      refine ⟨k + 1, ?_⟩
      rw [hk]
      simp [List.take_succ_cons]
    | error e =>
      obtain ⟨err, p3, st3⟩ := e
      rw [hc] at h
      cases err with
      | timeout =>
        cases h
        exact ⟨1, by simp [List.take_succ_cons]⟩
      | fuelOut => simp at h

theorem searchFinish_out {P M K : Type} [DecidableEq M] [DecidableEq K]
    (R : Rules P M K) (E : P → Int) (p2 : P) (st2 : EngineState M K)
    (tr : SearchTrace) :
    searchOut (searchFinish R E p2 st2 tr) =
      (match st2.bestMoveFound with
        | some m => some ((m, E p2), p2)
        | none =>
          match (R.legalMoves p2).head? with
          | none => none
          | some m => some ((m, E p2), p2)) := by
  cases hb : st2.bestMoveFound with
  | some m => simp [searchFinish, searchOut, hb]
  | none =>
    cases hh : (R.legalMoves p2).head? with
    | none => simp [searchFinish, searchOut, hb, hh]
    | some m => simp [searchFinish, searchOut, hb, hh]

theorem searchFinish_traceOf {P M K : Type} [DecidableEq M] [DecidableEq K]
    (R : Rules P M K) (E : P → Int) (p2 : P) (st2 : EngineState M K)
    (tr : SearchTrace) :
    searchTraceOf (searchFinish R E p2 st2 tr) =
      (match st2.bestMoveFound with
        | some _ => some tr
        | none =>
          match (R.legalMoves p2).head? with
          | none => none
          | some _ => some tr) := by
  cases hb : st2.bestMoveFound with
  | some m => simp [searchFinish, searchTraceOf, hb]
  | none =>
    cases hh : (R.legalMoves p2).head? with
    | none => simp [searchFinish, searchTraceOf, hb, hh]
    | some m => simp [searchFinish, searchTraceOf, hb, hh]


/-! ## Claim theorems -/

/-- C1: the claim (position restored on every exit path, including a
TimeoutError unwind) is right as intent but the code violates it: in toy game
A, with the time budget expiring at the second poll, the depth-2 `negamax`
raises out of its move loop after `board.push` and before `board.pop`, and the
error leaves the board holding the pushed move `[0]` instead of the entry
board `[]`. -/
theorem C1_timeout_leaves_board_mutated :
    negErrBoard (negamax gameA evalZero clockFromPoll1 3 [] 2 XInt.bot XInt.top 1 false
      emptyState) = some (SearchErr.timeout, [0])
    ∧ ([0] : List Nat) ≠ [] := by
  exact ⟨by decide, by decide⟩

/-- C2: in the mate-in-one shaped toy game B, `search` at maxDepth 2 returns
the first legal move 1 with the root static evaluation 5 — even though its own
transposition table records move 2 (the mating move, child evaluation -20000)
as best with value 20000: the effective `search` passes `True` into the `ply`
slot of `negamax`, so `is_root` is always False, `best_move_found` is never
assigned, and the mate-magnitude search value is discarded. -/
theorem C2_search_returns_first_legal_not_mating_move :
    searchOut (search gameB evalB clockNever 10 [] 2 emptyState) = some ((1, 5), [])
    ∧ ((searchStateOf (search gameB evalB clockNever 10 [] 2 emptyState)).map
        (fun s => s.transpositionTable [])) = some (some (2, XInt.fin 20000, some 2))
    ∧ evalB [2] = -20000
    ∧ evalB [] = 5
    ∧ (1 : Nat) ≠ 2 := by
  refine ⟨by decide, by decide, by decide, by decide, by decide⟩

/-- C3 counterexample: in toy game C the root has legal moves [1, 2], but when
the time budget expires inside the first pass the board is left corrupted at
[1], and `search` returns move 7 — the first legal move of the corrupted
position — which is not a legal move of the root position. -/
theorem C3_counterexample_returns_move_foreign_to_root :
    searchOut (search gameC evalC clockFromPoll1 10 [] 3 emptyState) = some ((7, 9), [1])
    ∧ gameC.legalMoves [] = [1, 2]
    ∧ (7 : Nat) ∉ [1, 2] := by
  refine ⟨by decide, by decide, by decide⟩

/-- C3 amended: when the clock never expires (and undo inverts apply), a
`search` that returns a move returns the first legal move of the unchanged
root position; in particular with zero legal moves no move is returned — the
fallback `list(board.legal_moves)[0]` fails instead. -/
theorem C3_amended_first_legal_move_of_root {P M K : Type}
    [DecidableEq M] [DecidableEq K]
    (R : Rules P M K) (E : P → Int) (clock : Nat → Bool) (fuel : Nat)
    (pos : P) (maxDepth : Nat) (st : EngineState M K)
    (m : M) (s : Int) (p2 : P)
    (hpp : ∀ p mv, R.pop (R.push p mv) = p)
    (hclock : ∀ i, clock i = false)
    (h : searchOut (search R E clock fuel pos maxDepth st) = some ((m, s), p2)) :
    p2 = pos ∧ (R.legalMoves pos).head? = some m := by
  simp only [search] at h
  cases hL : searchLoop R E clock fuel XInt.bot XInt.top
      ((List.range maxDepth).map (fun i => (i : Int) + 1)) pos
      { st with nodesSearched := 0, pollCount := 0, bestMoveFound := none } [] with
  | error u =>
    rw [hL] at h
    simp [searchOut] at h
  | ok out =>
    obtain ⟨p3, st3, tr⟩ := out
    rw [hL] at h
    have hsl := searchLoop_inv R E clock fuel XInt.bot XInt.top hpp hclock
      ((List.range maxDepth).map (fun i => (i : Int) + 1)) pos
      { st with nodesSearched := 0, pollCount := 0, bestMoveFound := none } []
      p3 st3 tr hL
    obtain ⟨hp3, hb3⟩ := hsl
    have hb3' : st3.bestMoveFound = none := hb3
    have h2 : searchOut (searchFinish R E p3 st3 tr) = some ((m, s), p2) := h
    rw [searchFinish_out, hb3'] at h2
    cases hh : (R.legalMoves p3).head? with
    | none =>
      rw [hh] at h2
      simp at h2
    | some m0 =>
      rw [hh] at h2
      simp only [Option.some.injEq, Prod.mk.injEq] at h2
      obtain ⟨⟨hm, _⟩, hp⟩ := h2
      refine ⟨hp ▸ hp3, ?_⟩
      rw [hp3] at hh
      rw [hh, hm]

/-- C10 counterexample: the same corrupted run as for C3 — `search` on toy
game C with the budget expiring mid-pass returns score 9, the evaluation of
the corrupted board [1], while the root position evaluates to 0: the returned
score is not the root's static evaluation and does depend on the time
budget. -/
theorem C10_counterexample_score_differs_from_entry_eval :
    searchOut (search gameC evalC clockFromPoll1 10 [] 3 emptyState) = some ((7, 9), [1])
    ∧ evalC [] = 0
    ∧ (9 : Int) ≠ 0 := by
  refine ⟨by decide, by decide, by decide⟩

/-- C10 amended: the returned Score is the evaluator's static value of the
board in the state the deepening loop left it, never a negamax value; when the
clock never expires the board is restored, so the score is exactly the static
evaluation of the root position, whatever maxDepth and the negamax passes
computed. -/
theorem C10_amended_score_is_entry_eval_without_timeout {P M K : Type}
    [DecidableEq M] [DecidableEq K]
    (R : Rules P M K) (E : P → Int) (clock : Nat → Bool) (fuel : Nat)
    (pos : P) (maxDepth : Nat) (st : EngineState M K)
    (m : M) (s : Int) (p2 : P)
    (hpp : ∀ p mv, R.pop (R.push p mv) = p)
    (hclock : ∀ i, clock i = false)
    (h : searchOut (search R E clock fuel pos maxDepth st) = some ((m, s), p2)) :
    s = E pos := by
  simp only [search] at h
  cases hL : searchLoop R E clock fuel XInt.bot XInt.top
      ((List.range maxDepth).map (fun i => (i : Int) + 1)) pos
      { st with nodesSearched := 0, pollCount := 0, bestMoveFound := none } [] with
  | error u =>
    rw [hL] at h
    simp [searchOut] at h
  | ok out =>
    obtain ⟨p3, st3, tr⟩ := out
    rw [hL] at h
    have hsl := searchLoop_inv R E clock fuel XInt.bot XInt.top hpp hclock
      ((List.range maxDepth).map (fun i => (i : Int) + 1)) pos
      { st with nodesSearched := 0, pollCount := 0, bestMoveFound := none } []
      p3 st3 tr hL
    obtain ⟨hp3, hb3⟩ := hsl
    have hb3' : st3.bestMoveFound = none := hb3
    have h2 : searchOut (searchFinish R E p3 st3 tr) = some ((m, s), p2) := h
    rw [searchFinish_out, hb3'] at h2
    cases hh : (R.legalMoves p3).head? with
    | none =>
      rw [hh] at h2
      simp at h2
    | some m0 =>
      rw [hh] at h2
      simp only [Option.some.injEq, Prod.mk.injEq] at h2
      obtain ⟨⟨_, hs⟩, _⟩ := h2
      rw [← hs, hp3]

/-- C3 witness: the amended statement applied to toy game B with a never
expiring clock — the returned move 1 is the first legal move of the unchanged
root. -/
theorem C3_witness : ([] : List Nat) = [] ∧ (gameB.legalMoves []).head? = some 1 :=
  C3_amended_first_legal_move_of_root gameB evalB clockNever 10 [] 2 emptyState
    1 5 [] (fun _ _ => rfl) (fun _ => rfl) (by decide)

/-- C10 witness: the amended statement applied to toy game B — the returned
score 5 is the static evaluation of the root. -/
theorem C10_witness : (5 : Int) = evalB [] :=
  C10_amended_score_is_entry_eval_without_timeout gameB evalB clockNever 10 [] 2
    emptyState 1 5 [] (fun _ _ => rfl) (fun _ => rfl) (by decide)

/-- C4 counterexample: a node searched with the full window (a
principal-variation node, `beta > alpha + 1`) still returns the planted
transposition value 12345 — PV nodes do consult the cache; the probe is not
guarded by the PV condition. -/
theorem C4_counterexample_pv_node_uses_cache :
    negOut (negamax gameA evalZero clockNever 2 [] 3 XInt.bot XInt.top 1 false plantedTT)
      = some (XInt.fin 12345, [])
    ∧ XInt.blt (XInt.addInt XInt.bot 1) XInt.top = true
    ∧ plantedTT.transpositionTable [] = some (5, XInt.fin 12345, some 9)
    ∧ evalZero [] = 0 := by
  refine ⟨by decide, by decide, by decide, by decide⟩

/-- C4 amended: round-trip of the transposition table as the code implements
it: with an entry `(sd, v, sm)` stored under the position key, a `negamax`
probe at any requested depth `d <= sd` (with the time budget not yet expired)
returns exactly `v` and leaves the board unchanged — gated only by entry
existence, stored depth, and the (effectively always false) `is_root` flag,
with no PV condition. -/
theorem C4_amended_tt_roundtrip {P M K : Type} [DecidableEq M] [DecidableEq K]
    (R : Rules P M K) (E : P → Int) (clock : Nat → Bool) (fuel : Nat)
    (pos : P) (d sd : Int) (v : XInt) (sm : Option M)
    (alpha beta : XInt) (ply : Nat) (st : EngineState M K)
    (hentry : st.transpositionTable (R.fen pos) = some (sd, v, sm))
    (hdepth : sd ≥ d)
    (hclk : clock st.pollCount = false) :
    negOut (negamax R E clock (fuel + 1) pos d alpha beta ply false st)
      = some (v, pos) := by
  simp [negamax, negOut, hclk, hentry, hdepth]

/-- C4 witness: the round-trip applied to the planted entry (depth 5, value
12345) probed at depth 3. -/
theorem C4_witness :
    negOut (negamax gameA evalZero clockNever 1 [] 3 XInt.bot XInt.top 1 false plantedTT)
      = some (XInt.fin 12345, []) :=
  C4_amended_tt_roundtrip gameA evalZero clockNever 0 [] 3 5 (XInt.fin 12345) (some 9)
    XInt.bot XInt.top 1 plantedTT rfl (by decide) rfl

/-- C5 counterexample: a full `search` call on an engine state with leftovers
in all four tables finishes with the history, killer, transposition and PV
leftovers intact — nothing is cleared at the start of a call. -/
theorem C5_counterexample_tables_survive_search :
    ((searchStateOf (search gameE evalZero clockNever 10 [] 1 dirtyState)).map
      (fun s => s.historyTable)) = some [((0, 0), 42)]
    ∧ ((searchStateOf (search gameE evalZero clockNever 10 [] 1 dirtyState)).map
      (fun s => s.killerMoves 0)) = some (some 8, none)
    ∧ ((searchStateOf (search gameE evalZero clockNever 10 [] 1 dirtyState)).map
      (fun s => s.transpositionTable [9])) = some (some (7, XInt.fin 1, none))
    ∧ ((searchStateOf (search gameE evalZero clockNever 10 [] 1 dirtyState)).map
      (fun s => s.pvTable 0 0)) = some (some 4)
    ∧ ([((0, 0), 42)] : List ((Nat × Nat) × Int)) ≠ [] := by
  refine ⟨by decide, by decide, by decide, by decide, by decide⟩

/-- C5 amended: the effective `search` resets only the node counter, the
timing state and the best-move slot — it depends on the incoming engine state
only through the four tables, which persist across calls; and even the
(never invoked) `clear_tables` would clear only the killer, history and PV
tables, never the transposition table. -/
theorem C5_amended_only_tables_survive_reset {M K : Type}
    [DecidableEq M] [DecidableEq K] :
    (∀ {P : Type} (R : Rules P M K) (E : P → Int) (clock : Nat → Bool) (fuel : Nat)
      (pos : P) (maxDepth : Nat) (st st' : EngineState M K),
      st.transpositionTable = st'.transpositionTable →
      st.historyTable = st'.historyTable →
      st.killerMoves = st'.killerMoves →
      st.pvTable = st'.pvTable →
      search R E clock fuel pos maxDepth st = search R E clock fuel pos maxDepth st')
    ∧ (∀ st : EngineState M K,
        (clearTables st).transpositionTable = st.transpositionTable
        ∧ (clearTables st).historyTable = []
        ∧ (clearTables st).killerMoves = (fun _ => (none, none))
        ∧ (clearTables st).pvTable = (fun _ _ => none)) := by
  constructor
  · rintro P R E clock fuel pos maxDepth ⟨n1, q1, b1, t1, h1, k1, v1⟩
      ⟨n2, q2, b2, t2, h2, k2, v2⟩ ht hh hk hv
    obtain rfl : t1 = t2 := ht
    obtain rfl : h1 = h2 := hh
    obtain rfl : k1 = k2 := hk
    obtain rfl : v1 = v2 := hv
    rfl
  · intro st
    exact ⟨rfl, rfl, rfl, rfl⟩

/-- C5 witness: two states sharing their tables but differing in the node
counter produce identical `search` results. -/
theorem C5_witness :
    search gameE evalZero clockNever 3 [] 1 { dirtyState with nodesSearched := 99 }
      = search gameE evalZero clockNever 3 [] 1 dirtyState :=
  C5_amended_only_tables_survive_reset.1 gameE evalZero clockNever 3 [] 1
    { dirtyState with nodesSearched := 99 } dirtyState rfl rfl rfl rfl

/-- C6 counterexample: in toy game F the position `[0, 0]` is the third
occurrence of the (unique) board configuration, yet `negamax` returns the
search value 42, not the draw score 0 — there is no repetition handling in the
code. -/
theorem C6_counterexample_third_repetition_not_drawn :
    negOut (negamax gameF evalF clockNever 10 [0, 0] 2 XInt.bot XInt.top 1 false
      emptyState) = some (XInt.fin 42, [0, 0])
    ∧ timesReachedF [0, 0] = 3
    ∧ XInt.fin 42 ≠ XInt.fin 0 := by
  refine ⟨by decide, by decide, by decide⟩

/-- C6 amended: the only early-exit gate of this kind in `negamax` is
`depth <= 0 or board.is_game_over()` — when the Rules Engine flags the
position as over (which covers fivefold repetition and the 75-move rule, not
a third repetition), the node delegates to quiescence search (an
evaluation-based value, not a forced 0), after the node count, the poll and a
missing transposition probe. -/
theorem C6_amended_game_over_delegates_to_quiescence {P M K : Type}
    [DecidableEq M] [DecidableEq K]
    (R : Rules P M K) (E : P → Int) (clock : Nat → Bool) (fuel : Nat)
    (pos : P) (d : Int) (alpha beta : XInt) (ply : Nat) (st : EngineState M K)
    (hgo : R.isGameOver pos = true)
    (hclk : clock st.pollCount = false)
    (hmiss : st.transpositionTable (R.fen pos) = none) :
    negamax R E clock (fuel + 1) pos d alpha beta ply false st
      = match quiescence R E fuel pos alpha beta 4 with
        | some v => .ok (v, pos,
            { st with nodesSearched := st.nodesSearched + 1,
                      pollCount := st.pollCount + 1 })
        | none => .error (.fuelOut, pos,
            { st with nodesSearched := st.nodesSearched + 1,
                      pollCount := st.pollCount + 1 }) := by
  simp [negamax, hclk, hmiss, hgo]

/-- C6 witness: the delegation applied at the game-over position of toy game
F. -/
theorem C6_witness :
    negamax gameF evalF clockNever 4 [0, 0, 0, 0] 2 XInt.bot XInt.top 1 false emptyState
      = match quiescence gameF evalF 3 [0, 0, 0, 0] XInt.bot XInt.top 4 with
        | some v => .ok (v, [0, 0, 0, 0],
            { (emptyState : EngineState Nat (List Nat)) with
                nodesSearched := (emptyState : EngineState Nat (List Nat)).nodesSearched + 1,
                pollCount := (emptyState : EngineState Nat (List Nat)).pollCount + 1 })
        | none => .error (.fuelOut, [0, 0, 0, 0],
            { (emptyState : EngineState Nat (List Nat)) with
                nodesSearched := (emptyState : EngineState Nat (List Nat)).nodesSearched + 1,
                pollCount := (emptyState : EngineState Nat (List Nat)).pollCount + 1 }) :=
  C6_amended_game_over_delegates_to_quiescence gameF evalF clockNever 3 [0, 0, 0, 0]
    2 XInt.bot XInt.top 1 emptyState (by decide) rfl rfl

/-- C7 counterexample: iterative deepening on toy game F to depth 4 issues the
four root calls with the constant full window `(-inf, +inf)` — in particular
the depth-4 pass is not searched inside `[prev - 25, prev + 25]` for any
previous score whatsoever, and no retry occurs. -/
theorem C7_counterexample_no_aspiration_window :
    searchTraceOf (search gameF evalF clockNever 12 [] 4 emptyState)
      = some [(1, XInt.bot, XInt.top), (2, XInt.bot, XInt.top),
              (3, XInt.bot, XInt.top), (4, XInt.bot, XInt.top)]
    ∧ ∀ s : Int, ((XInt.bot, XInt.top) : XInt × XInt)
        ≠ (XInt.fin (s - 25), XInt.fin (s + 25)) := by
  refine ⟨by decide, ?_⟩
  intro s
  simp [Prod.ext_iff]

/-- C7 amended: every root pass of the deepening loop uses the constant full
window `(-inf, +inf)`, and the sequence of pass depths is an initial segment
of `1..maxDepth` (one pass per depth, cut short only by a timeout) — there are
no aspiration windows, no widening and no retries. -/
theorem C7_amended_full_window_every_pass {P M K : Type}
    [DecidableEq M] [DecidableEq K]
    (R : Rules P M K) (E : P → Int) (clock : Nat → Bool) (fuel : Nat)
    (pos : P) (maxDepth : Nat) (st : EngineState M K) :
    (∀ e, e ∈ (searchTraceOf (search R E clock fuel pos maxDepth st)).getD [] →
      e.2.1 = XInt.bot ∧ e.2.2 = XInt.top)
    ∧ (∃ k, (searchTraceOf (search R E clock fuel pos maxDepth st)).getD []
        = ((List.range maxDepth).map
            (fun i => (((i : Int) + 1, XInt.bot, XInt.top) : Int × XInt × XInt))).take k) := by
  have key : ∃ k, (searchTraceOf (search R E clock fuel pos maxDepth st)).getD []
      = ((List.range maxDepth).map
          (fun i => (((i : Int) + 1, XInt.bot, XInt.top) : Int × XInt × XInt))).take k := by
    simp only [search]
    cases hL : searchLoop R E clock fuel XInt.bot XInt.top
        ((List.range maxDepth).map (fun i => (i : Int) + 1)) pos
        { st with nodesSearched := 0, pollCount := 0, bestMoveFound := none } [] with
    | error u => exact ⟨0, by simp [searchTraceOf]⟩
    | ok out =>
      obtain ⟨p3, st3, tr⟩ := out
      obtain ⟨k, hk⟩ := searchLoop_trace R E clock fuel XInt.bot XInt.top
        ((List.range maxDepth).map (fun i => (i : Int) + 1)) pos
        { st with nodesSearched := 0, pollCount := 0, bestMoveFound := none } []
        p3 st3 tr hL
      have hk2 : tr = ((List.range maxDepth).map
          (fun i => (((i : Int) + 1, XInt.bot, XInt.top) : Int × XInt × XInt))).take k := by
        rw [hk]
        simp only [List.nil_append, List.map_take, List.map_map]
        rfl
      show ∃ j, (searchTraceOf (searchFinish R E p3 st3 tr)).getD []
          = ((List.range maxDepth).map
              (fun i => (((i : Int) + 1, XInt.bot, XInt.top) : Int × XInt × XInt))).take j
      rw [searchFinish_traceOf]
      cases st3.bestMoveFound with
      | some m => exact ⟨k, by simpa using hk2⟩
      | none =>
        cases (R.legalMoves p3).head? with
        | none => exact ⟨0, by simp⟩
        | some m => exact ⟨k, by simpa using hk2⟩
  refine ⟨?_, key⟩
  intro e he
  obtain ⟨k, hk⟩ := key
  rw [hk] at he
  have he2 := List.take_subset _ _ he
  obtain ⟨i, _, rfl⟩ := List.mem_map.mp he2
  exact ⟨rfl, rfl⟩

/-- C7 witness: the amended statement applied to the concrete run on toy game
F — the depth-1 entry is in the trace and carries the full window. -/
theorem C7_witness :
    ((1 : Int), XInt.bot, XInt.top)
        ∈ (searchTraceOf (search gameF evalF clockNever 12 [] 4 emptyState)).getD []
    ∧ (((1 : Int), XInt.bot, XInt.top) : Int × XInt × XInt).2.1 = XInt.bot
    ∧ (((1 : Int), XInt.bot, XInt.top) : Int × XInt × XInt).2.2 = XInt.top := by
  refine ⟨by decide, ?_, ?_⟩
  · exact ((C7_amended_full_window_every_pass gameF evalF clockNever 12 [] 4
      emptyState).1 ((1 : Int), XInt.bot, XInt.top) (by decide)).1
  · exact ((C7_amended_full_window_every_pass gameF evalF clockNever 12 [] 4
      emptyState).1 ((1 : Int), XInt.bot, XInt.top) (by decide)).2

/-- C8 counterexample: no single offset K makes the capture score equal
`victimValue * 6 - attackerValue + K` for all captures: in toy game H, pawn
takes queen scores 10049 and queen takes pawn scores 10005, while the claimed
value-based formula would put them 5300 + K and -300 + K apart — the code
scores captures by piece-type index (`victim.piece_type * 10 -
attacker.piece_type`), not by centipawn piece values. -/
theorem C8_counterexample_no_value_based_offset :
    ¬ ∃ K : Int,
      getMoveScore gameH emptyState [] (10, 20) 1 = 900 * 6 - 100 + K
      ∧ getMoveScore gameH emptyState [] (30, 40) 1 = 100 * 6 - 900 + K := by
  have e1 : getMoveScore gameH emptyState [] (10, 20) 1 = 10049 := by decide
  have e2 : getMoveScore gameH emptyState [] (30, 40) 1 = 10005 := by decide
  rintro ⟨K, h1, h2⟩
  rw [e1] at h1
  rw [e2] at h2
  omega

/-- C8 amended: a capture with both attacker and victim on the board, not
ranked as PV or hash move, scores `10000 + victimPieceType * 10 -
attackerPieceType` over the piece-type indices 1..6 (not centipawn values);
and with all tables empty, the free queen capture is placed first among the
ordered moves of the concrete board of toy game H. -/
theorem C8_amended_capture_score_and_queen_first :
    (∀ {P M K : Type} [DecidableEq M] [DecidableEq K]
      (R : Rules P M K) (st : EngineState M K) (pos : P) (mv : M) (ply : Nat)
      (a v : Piece),
      st.pvTable 0 (ply : Int) ≠ some mv →
      (∀ e, st.transpositionTable (R.fen pos) = some e → e.2.2 ≠ some mv) →
      R.isCapture pos mv = true →
      R.pieceAt pos (R.fromSquare mv) = some a →
      R.pieceAt pos (R.toSquare mv) = some v →
      getMoveScore R st pos mv ply
        = 10000 + ((v.pieceType : Int) * 10 - (a.pieceType : Int)))
    ∧ (orderMoves gameH emptyState [] (gameH.legalMoves []) 1).head? = some (10, 20) := by
  constructor
  · intro P M K instM instK R st pos mv ply a v h1 h2 h3 h4 h5
    have h2' : (match st.transpositionTable (R.fen pos) with
        | some e => decide (e.2.2 = some mv)
        | none => false) = false := by
      cases hT : st.transpositionTable (R.fen pos) with
      | none => rfl
      | some e => simpa using h2 e hT
    simp [getMoveScore, h1, h2', h3, h4, h5]
  · decide

/-- C8 witness: the amended capture formula applied to the pawn-takes-queen
capture of toy game H: queen piece type 5, pawn piece type 1. -/
theorem C8_witness :
    getMoveScore gameH emptyState [] (10, 20) 1
      = 10000 + (((5 : Nat) : Int) * 10 - ((1 : Nat) : Int)) :=
  C8_amended_capture_score_and_queen_first.1 gameH emptyState [] (10, 20) 1
    ⟨1, true⟩ ⟨5, false⟩ (by decide)
    (by intro e h; simp [emptyState] at h) (by decide) (by decide) (by decide)

/-- C9 counterexample: on a board with two white pawns doubled on the a-file
the pawn-structure term evaluates to -55 (two doubled contributions of -20
plus the isolation penalty -15), while the spec's reading — the doubled
penalty `(n - 1) * (-20)` applied once per file — would give -35: the source
adds the file's penalty once per pawn of the file. -/
theorem C9_counterexample_doubled_penalty_counted_per_pawn :
    evaluatePawnStructure doubledPawnBoard = -55
    ∧ pawnStructureSpecDoubledOnce doubledPawnBoard = -35
    ∧ evaluatePawnStructure doubledPawnBoard ≠ pawnStructureSpecDoubledOnce doubledPawnBoard := by
  refine ⟨by decide, by decide, by decide⟩

/-- C9 amended: a file holding n pawns of one color (and an otherwise empty
board) contributes n * (n - 1) * (-20) as its total doubled-pawn term — the
per-file penalty (n - 1) * (-20) is added once per pawn — plus the isolation
penalty when the file is occupied, the whole signed toward the owning color in
the White-perspective aggregate. -/
theorem C9_amended_doubled_penalty_quadratic :
    ∀ (f : Fin 8) (n : Fin 9) (c : Bool),
      evaluatePawnStructure (pawnsOnFile f n c)
        = (if c then 1 else -1)
          * (((n : Nat) : Int) * (((n : Nat) : Int) - 1) * DOUBLED_PAWN_PENALTY
            + (if (n : Nat) ≥ 1 then ISOLATED_PAWN_PENALTY else 0)) := by
  decide
